import Mathlib

/-!
Verification of the JSON language-client bridge
(src/packages/examples/main/src/browser/main.ts).

The file shallowly embeds the bridge: the document snapshot builder, the
coordinate converters, the diagnostic channel, the debounced validator
(modelled as a state machine over an explicit world state with a timer
queue, following the browser's single-threaded event-loop semantics), the
hover adapter and the schema-retrieval callback.  The language-intelligence
engine (vscode-json-languageservice) is an opaque external collaborator and
is therefore a parameter of every definition that calls into it.
-/

namespace MonacoJson

/-! ## Source constants (main.ts lines 21-23) -/

def LANGUAGE_ID : String := "json"

def MODEL_URI : String := "inmemory://model.json"

/-- monaco.Uri.parse(MODEL_URI); URIs are modelled as strings. -/
def MONACO_URI : String := MODEL_URI

/-! ## Documents -/

/-- The editor-side document (vscode.TextDocument): the live buffer. -/
structure VscodeDocument where
  uri : String
  languageId : String
  version : Nat
  text : String
deriving DecidableEq

/-- The service-side snapshot (vscode-json-languageservice TextDocument). -/
structure TextDocument where
  uri : String
  languageId : String
  version : Nat
  text : String
deriving DecidableEq

/-- main.ts lines 52-54: TextDocument.create(MODEL_URI, languageId, version,
getText()) — note the constant MODEL_URI, not the editor document's own uri. -/
def createDocument (vscodeDocument : VscodeDocument) : TextDocument :=
  { uri := MODEL_URI, languageId := vscodeDocument.languageId,
    version := vscodeDocument.version, text := vscodeDocument.text }

/-! ## Positions and ranges (coordinate converter) -/

structure EditorPosition where
  line : Nat
  character : Nat
deriving DecidableEq

structure ServicePosition where
  line : Nat
  character : Nat
deriving DecidableEq

/-- An editor range; the source field named end is called endPos here. -/
structure EditorRange where
  start : EditorPosition
  endPos : EditorPosition
deriving DecidableEq

structure ServiceRange where
  start : ServicePosition
  endPos : ServicePosition
deriving DecidableEq

/-- Modelled from the spec: codeConverter.asPosition (vscode-languageclient,
not part of this repository) — pure representation translation from editor
space to service space, preserving zero-based line and character. -/
def toServicePosition (p : EditorPosition) : ServicePosition :=
  { line := p.line, character := p.character }

/-- Modelled from the spec: protocolConverter.asPosition — the inverse
translation, service space back to editor space. -/
def toEditorPosition (p : ServicePosition) : EditorPosition :=
  { line := p.line, character := p.character }

/-- Modelled from the spec: codeConverter.asRange, translating both endpoints. -/
def toServiceRange (r : EditorRange) : ServiceRange :=
  { start := toServicePosition r.start, endPos := toServicePosition r.endPos }

/-- Modelled from the spec: protocolConverter.asRange, translating both
endpoints back. -/
def toEditorRange (r : ServiceRange) : EditorRange :=
  { start := toEditorPosition r.start, endPos := toEditorPosition r.endPos }

/-! ## Diagnostics -/

/-- A protocol (service-shaped) diagnostic as produced by doValidation. -/
structure PDiagnostic where
  range : ServiceRange
  severity : Nat
  message : String
deriving DecidableEq

/-- An editor-shaped diagnostic as consumed by the diagnostic collection. -/
structure Diagnostic where
  range : EditorRange
  severity : Nat
  message : String
deriving DecidableEq

/-- Modelled from the spec: the editor framework's named diagnostic
collection (vscode.languages.createDiagnosticCollection, not part of this
repository): a mapping from document URI to the diagnostics for that URI. -/
abbrev DiagnosticCollection := List (String × List Diagnostic)

def collectionRemove : DiagnosticCollection → String → DiagnosticCollection
  | [], _ => []
  | entry :: rest, uri =>
    if entry.1 = uri then collectionRemove rest uri
    else entry :: collectionRemove rest uri

/-- Modelled from the spec: set(uri, diagnostics) replaces the full
diagnostic set for uri; diagnostics not included are implicitly removed. -/
def collectionSet (collection : DiagnosticCollection) (uri : String)
    (diagnostics : List Diagnostic) : DiagnosticCollection :=
  (uri, diagnostics) :: collectionRemove collection uri

/-- Modelled from the spec: the diagnostics the editor presents for a uri. -/
def collectionGet : DiagnosticCollection → String → List Diagnostic
  | [], _ => []
  | entry :: rest, uri => if entry.1 = uri then entry.2 else collectionGet rest uri

/-- Modelled from the spec: clear() removes all diagnostics for all URIs. -/
def collectionClear (_collection : DiagnosticCollection) : DiagnosticCollection := []

/-! ## The validation pass (main.ts lines 134-149) -/

/-- The engine's doValidation composed with parseJSONDocument: an opaque
asynchronous external call that either resolves with protocol diagnostics or
rejects. -/
abbrev ValidationEngine := TextDocument → Except String (List PDiagnostic)

/-- protocolConverter.asDiagnostics: an opaque asynchronous conversion that
either resolves with editor diagnostics or rejects. -/
abbrev DiagnosticConversion := List PDiagnostic → Except String (List Diagnostic)

/-- What one doValidate invocation did: the resulting collection and which
calls were made during the pass. -/
structure ValidateRun where
  coll : DiagnosticCollection
  parsed : Bool
  engineCalled : Bool
  clearCalled : Bool
deriving DecidableEq

/-- main.ts lines 134-145 and 147-149: if the snapshot text is empty, clear
the diagnostics (cleanDiagnostics) and return; otherwise parse the document,
call the engine's doValidation, await the diagnostic conversion and publish
via set.  A rejected engine call or conversion means the then-continuation
never runs, so the collection is left untouched. -/
def doValidate (engine : ValidationEngine) (conv : DiagnosticConversion)
    (coll : DiagnosticCollection) (document : TextDocument) : ValidateRun :=
  if document.text.length = 0 then
    { coll := collectionClear coll, parsed := false, engineCalled := false,
      clearCalled := true }
  else
    match engine document with
    | Except.error _ =>
      { coll := coll, parsed := true, engineCalled := true, clearCalled := false }
    | Except.ok pDiagnostics =>
      match conv pDiagnostics with
      | Except.error _ =>
        { coll := coll, parsed := true, engineCalled := true, clearCalled := false }
      | Except.ok diagnostics =>
        { coll := collectionSet coll MONACO_URI diagnostics, parsed := true,
          engineCalled := true, clearCalled := false }

/-! ## Hover adapter (main.ts lines 101-109) -/

/-- The payload of a service hover result. -/
structure HoverContent where
  value : String
deriving DecidableEq

/-- The payload of an editor hover result. -/
structure EditorHover where
  value : String
deriving DecidableEq

/-- Modelled from the spec: protocolConverter.asHover (vscode-languageclient,
not part of this repository) — converts a service hover into an editor
hover and passes an absent result through as absent. -/
def asHover : Option HoverContent → Option EditorHover
  | none => none
  | some h => some { value := h.value }

/-- The engine's doHover composed with parseJSONDocument: resolves with none
when there is nothing under the cursor, rejects on engine failure. -/
abbrev HoverEngine := TextDocument → ServicePosition → Except String (Option HoverContent)

/-- main.ts lines 101-109: build a snapshot, call doHover at the converted
position, then map the resolved value through asHover.  A rejection of the
engine promise propagates; a resolved absent hover resolves. -/
def provideHover (doHover : HoverEngine) (vscodeDocument : VscodeDocument)
    (position : EditorPosition) : Except String (Option EditorHover) :=
  match doHover (createDocument vscodeDocument) (toServicePosition position) with
  | Except.error e => Except.error e
  | Except.ok hover => Except.ok (asHover hover)

/-! ## Schema retrieval (main.ts lines 56-65) -/

/-- The outcome of the single XMLHttpRequest the transport delivers: either
the onload event with the response text or the onerror event with the status
text. -/
inductive XhrOutcome where
  | load (responseText : String)
  | error (statusText : String)
deriving DecidableEq

/-- The handlers resolveSchema installs on the request object. -/
structure XhrHandlers (α : Type) where
  onload : String → α
  onerror : String → α

/-- Dispatch of the transport outcome to the installed handler. -/
def xhrSend {α : Type} (handlers : XhrHandlers α) : XhrOutcome → α
  | XhrOutcome.load responseText => handlers.onload responseText
  | XhrOutcome.error statusText => handlers.onerror statusText

/-- main.ts lines 56-65: one GET request; onload resolves the promise with
xhr.responseText, onerror rejects it with xhr.statusText.  Exactly one
request is sent — the result is a function of that single outcome. -/
def resolveSchema (_url : String) : XhrOutcome → Except String String :=
  xhrSend { onload := fun responseText => Except.ok responseText,
            onerror := fun statusText => Except.error statusText }

/-! ## The debounced validator as an event-loop state machine
(main.ts lines 70 and 111-131) -/

/-- A live timer created by window.setTimeout: its handle, the delay it was
scheduled with, and the document snapshot captured by the callback closure. -/
structure Timer where
  id : Nat
  delay : Nat
  doc : TextDocument
deriving DecidableEq

/-- main.ts line 119 calls window.setTimeout with the delay argument
omitted; per the timer API an omitted timeout defaults to zero. -/
def setTimeoutDefaultDelay : Nat := 0

/-- The world the bridge mutates: the live editor buffer, the
pendingValidationRequests map (line 70), the queue of live timers, the
fresh-handle counter, the diagnostic collection (line 133) and the log of
doValidate invocations (each entry the snapshot a pass validated). -/
structure WorldState where
  vscodeDocument : VscodeDocument
  pendingValidationRequests : List (String × Nat)
  timers : List Timer
  nextTimerId : Nat
  diagnostics : DiagnosticCollection
  validatedDocs : List TextDocument
deriving DecidableEq

/-- JS Map.get. -/
def mapGet : List (String × Nat) → String → Option Nat
  | [], _ => none
  | entry :: rest, key => if entry.1 = key then some entry.2 else mapGet rest key

/-- JS Map.set: update in place when the key exists, append otherwise. -/
def mapSet : List (String × Nat) → String → Nat → List (String × Nat)
  | [], key, value => [(key, value)]
  | entry :: rest, key, value =>
    if entry.1 = key then (key, value) :: rest else entry :: mapSet rest key value

/-- JS Map.delete. -/
def mapDelete : List (String × Nat) → String → List (String × Nat)
  | [], _ => []
  | entry :: rest, key =>
    if entry.1 = key then mapDelete rest key else entry :: mapDelete rest key

/-- window.clearTimeout: the timer with that handle never fires. -/
def clearTimeout : List Timer → Nat → List Timer
  | [], _ => []
  | t :: rest, i => if t.id = i then clearTimeout rest i else t :: clearTimeout rest i

/-- main.ts lines 125-131: look the document's uri up in
pendingValidationRequests; when a request is pending, clearTimeout it and
delete the map entry. -/
def cleanPendingValidation (s : WorldState) (document : TextDocument) : WorldState :=
  match mapGet s.pendingValidationRequests document.uri with
  | some request =>
    { s with timers := clearTimeout s.timers request,
             pendingValidationRequests :=
               mapDelete s.pendingValidationRequests document.uri }
  | none => s

/-- main.ts lines 116-123: snapshot the buffer, cancel any pending request
for the snapshot's uri, schedule the validation callback with
window.setTimeout (delay omitted) and store the fresh handle under the uri.
The callback closure captures the snapshot taken now. -/
def validate (s : WorldState) : WorldState :=
  let document := createDocument s.vscodeDocument
  let s1 := cleanPendingValidation s document
  { s1 with
    timers := s1.timers ++
      [{ id := s1.nextTimerId, delay := setTimeoutDefaultDelay, doc := document }],
    nextTimerId := s1.nextTimerId + 1,
    pendingValidationRequests :=
      mapSet s1.pendingValidationRequests document.uri s1.nextTimerId }

/-- The two event-loop stimuli the debounced validator reacts to: a buffer
mutation (model.onDidChangeContent fires and runs validate, lines 111-113)
and the firing of the oldest due timer. -/
inductive Event where
  | contentChanged (newText : String)
  | fireTimer
deriving DecidableEq

/-- One event-loop step.  contentChanged mutates the buffer (bumping the
version) and synchronously runs validate.  fireTimer pops the oldest live
timer and runs its callback (main.ts lines 119-122): delete the map entry
for the captured snapshot's uri, then doValidate that snapshot. -/
def step (engine : ValidationEngine) (conv : DiagnosticConversion)
    (s : WorldState) : Event → WorldState
  | Event.contentChanged newText =>
    validate { s with vscodeDocument :=
      { s.vscodeDocument with text := newText,
                              version := s.vscodeDocument.version + 1 } }
  | Event.fireTimer =>
    match s.timers with
    | [] => s
    | t :: rest =>
      let s1 := { s with
        timers := rest,
        pendingValidationRequests := mapDelete s.pendingValidationRequests t.doc.uri }
      let r := doValidate engine conv s1.diagnostics t.doc
      { s1 with diagnostics := r.coll,
                validatedDocs := s1.validatedDocs ++ [t.doc] }

/-- A run of the event loop from a state through a list of events. -/
def run (engine : ValidationEngine) (conv : DiagnosticConversion)
    (s : WorldState) (events : List Event) : WorldState :=
  events.foldl (step engine conv) s

/-- main.ts lines 36-40: the initial model value and the fresh world before
the first validate call. -/
def initialValue : String :=
  "\x7b\n    \"$schema\": \"http://json.schemastore.org/coffeelint\",\n    \"line_endings\": \"unix\"\n\x7d"

def initialWorld : WorldState :=
  { vscodeDocument :=
      { uri := MODEL_URI, languageId := LANGUAGE_ID, version := 1, text := initialValue },
    pendingValidationRequests := [], timers := [], nextTimerId := 0,
    diagnostics := [], validatedDocs := [] }

/-- main.ts line 114: validate() runs once at startup, right after the
content-change subscription is installed. -/
def startupState : WorldState := validate initialWorld

/-- A burst of content-changed events: some texts followed by the last text
of the burst, with no timer firing interleaved (the events arrive within
less than the quiescence delay). -/
def burst (ts : List String) (x : String) : List Event :=
  (ts ++ [x]).map Event.contentChanged

/-- The state-machine invariant of the debounced validator: either nothing
is pending, or exactly one live timer exists, its captured snapshot carries
MODEL_URI, it was scheduled with the default (omitted) delay, its handle is
fresh-bounded, and the pending map holds exactly that handle under
MODEL_URI. -/
def WellFormed (s : WorldState) : Prop :=
  (s.timers = [] ∧ s.pendingValidationRequests = []) ∨
  (∃ t : Timer, s.timers = [t] ∧ t.doc.uri = MODEL_URI ∧
    t.delay = setTimeoutDefaultDelay ∧ t.id < s.nextTimerId ∧
    s.pendingValidationRequests = [(MODEL_URI, t.id)])

/-! ## Concrete collaborators used to instantiate theorems -/

/-- An engine run that finds no problem. -/
def engine0 : ValidationEngine := fun _ => Except.ok []

/-- An engine run whose promise rejects (e.g. schema retrieval failed). -/
def engineFail : ValidationEngine := fun _ => Except.error "XHR transport error"

/-- A conversion that succeeds on the empty diagnostic list. -/
def conv0 : DiagnosticConversion := fun _ => Except.ok []

/-- A hover engine that resolves with no hover target under the cursor. -/
def hoverEngine0 : HoverEngine := fun _ _ => Except.ok none

/-- A sample editor-shaped diagnostic. -/
def d0 : Diagnostic :=
  { range := { start := { line := 0, character := 0 },
               endPos := { line := 0, character := 1 } },
    severity := 1, message := "sample" }

/-! ## Helper lemmas -/

theorem mapGet_mapSet_self (m : List (String × Nat)) (key : String) (value : Nat) :
    mapGet (mapSet m key value) key = some value := by
  induction m with
  | nil => simp [mapGet, mapSet]
  | cons entry rest ih =>
    by_cases hk : entry.1 = key
    · simp [mapGet, mapSet, hk]
    · simp [mapGet, mapSet, hk, ih]

theorem validate_of_wf (s : WorldState) (h : WellFormed s) :
    (validate s).timers =
      [{ id := s.nextTimerId, delay := setTimeoutDefaultDelay,
         doc := createDocument s.vscodeDocument }] ∧
    (validate s).pendingValidationRequests = [(MODEL_URI, s.nextTimerId)] ∧
    (validate s).nextTimerId = s.nextTimerId + 1 ∧
    (validate s).vscodeDocument = s.vscodeDocument ∧
    (validate s).validatedDocs = s.validatedDocs ∧
    (validate s).diagnostics = s.diagnostics := by
  rcases h with ⟨ht, hp⟩ | ⟨t, ht, hu, hd, hi, hp⟩
  · simp [validate, cleanPendingValidation, createDocument, mapGet, mapSet, hp, ht]
  · simp [validate, cleanPendingValidation, createDocument, mapGet, mapSet, mapDelete,
      clearTimeout, hp, ht]

theorem wf_validate (s : WorldState) (h : WellFormed s) : WellFormed (validate s) := by
  obtain ⟨ht, hp, hn, -, -, -⟩ := validate_of_wf s h
  refine Or.inr ⟨_, ht, rfl, rfl, ?_, hp⟩
  rw [hn]
  exact Nat.lt_succ_self _

theorem wf_buffer_update (s : WorldState) (d : VscodeDocument) (h : WellFormed s) :
    WellFormed { s with vscodeDocument := d } := by
  rcases h with ⟨ht, hp⟩ | ⟨t, ht, hu, hd, hi, hp⟩
  · exact Or.inl ⟨ht, hp⟩
  · exact Or.inr ⟨t, ht, hu, hd, hi, hp⟩

theorem wf_step (engine : ValidationEngine) (conv : DiagnosticConversion)
    (s : WorldState) (e : Event) (h : WellFormed s) :
    WellFormed (step engine conv s e) := by
  cases e with
  | contentChanged newText => exact wf_validate _ (wf_buffer_update s _ h)
  | fireTimer =>
    rcases h with ⟨ht, hp⟩ | ⟨t, ht, hu, hd, hi, hp⟩
    · simp only [step]
      rw [ht]
      exact Or.inl ⟨ht, hp⟩
    · have hdel : mapDelete s.pendingValidationRequests t.doc.uri = [] := by
        rw [hp, hu]
        simp [mapDelete]
      simp only [step]
      rw [ht]
      exact Or.inl ⟨rfl, hdel⟩

theorem wf_run (engine : ValidationEngine) (conv : DiagnosticConversion)
    (events : List Event) (s : WorldState) (h : WellFormed s) :
    WellFormed (run engine conv s events) := by
  induction events generalizing s with
  | nil => exact h
  | cons e es ih => exact ih _ (wf_step engine conv s e h)

theorem startup_wf : WellFormed startupState :=
  wf_validate initialWorld (Or.inl ⟨rfl, rfl⟩)

theorem run_append (engine : ValidationEngine) (conv : DiagnosticConversion)
    (s : WorldState) (es fs : List Event) :
    run engine conv s (es ++ fs) = run engine conv (run engine conv s es) fs :=
  List.foldl_append _ _ _ _

theorem step_contentChanged_shape (engine : ValidationEngine) (conv : DiagnosticConversion)
    (s : WorldState) (x : String) (h : WellFormed s) :
    (step engine conv s (Event.contentChanged x)).timers =
      [{ id := s.nextTimerId, delay := setTimeoutDefaultDelay,
         doc := { uri := MODEL_URI, languageId := s.vscodeDocument.languageId,
                  version := s.vscodeDocument.version + 1, text := x } }] ∧
    (step engine conv s (Event.contentChanged x)).validatedDocs = s.validatedDocs := by
  obtain ⟨ht, -, -, -, hv, -⟩ := validate_of_wf
    { s with vscodeDocument :=
        { s.vscodeDocument with text := x, version := s.vscodeDocument.version + 1 } }
    (wf_buffer_update s _ h)
  exact ⟨ht, hv⟩

theorem run_contentChanged (engine : ValidationEngine) (conv : DiagnosticConversion)
    (ts : List String) (s : WorldState) (h : WellFormed s) :
    WellFormed (run engine conv s (ts.map Event.contentChanged)) ∧
    (run engine conv s (ts.map Event.contentChanged)).validatedDocs = s.validatedDocs := by
  induction ts generalizing s with
  | nil => exact ⟨h, rfl⟩
  | cons x xs ih =>
    have hs := wf_step engine conv s (Event.contentChanged x) h
    obtain ⟨hw, hv⟩ := ih (step engine conv s (Event.contentChanged x)) hs
    have hstep : (step engine conv s (Event.contentChanged x)).validatedDocs =
        s.validatedDocs :=
      (step_contentChanged_shape engine conv s x h).2
    exact ⟨hw, hv.trans hstep⟩

theorem step_fireTimer_of_single (engine : ValidationEngine) (conv : DiagnosticConversion)
    (s : WorldState) (t : Timer) (ht : s.timers = [t]) :
    (step engine conv s Event.fireTimer).validatedDocs = s.validatedDocs ++ [t.doc] ∧
    (step engine conv s Event.fireTimer).timers = [] := by
  simp only [step]
  rw [ht]
  exact ⟨rfl, rfl⟩

theorem step_fireTimer_of_empty (engine : ValidationEngine) (conv : DiagnosticConversion)
    (s : WorldState) (ht : s.timers = []) :
    step engine conv s Event.fireTimer = s := by
  simp only [step]
  rw [ht]

/-! ## The claims -/

/-- C1, debounce coalescing: from any reachable (well-formed) state, a burst
of N = ts.length + 1 content-changed events with no timer firing interleaved
(i.e. all fired within less than the quiescence delay) executes no validation
pass during the burst, and once the pending timer fires exactly one pass runs,
validating the buffer state as of the last event of the burst; firing again
changes nothing. -/
theorem debounce_coalescing (engine : ValidationEngine) (conv : DiagnosticConversion)
    (ts : List String) (x : String) (s : WorldState) (h : WellFormed s) :
    (run engine conv s (burst ts x)).validatedDocs = s.validatedDocs ∧
    (∃ d : TextDocument, d.text = x ∧ d.uri = MODEL_URI ∧
      (run engine conv s (burst ts x ++ [Event.fireTimer])).validatedDocs =
        s.validatedDocs ++ [d]) ∧
    run engine conv s (burst ts x ++ [Event.fireTimer, Event.fireTimer]) =
      run engine conv s (burst ts x ++ [Event.fireTimer]) := by
  have hb : burst ts x = ts.map Event.contentChanged ++ [Event.contentChanged x] := by
    simp [burst]
  obtain ⟨hwA, hvA⟩ := run_contentChanged engine conv ts s h
  obtain ⟨ht1, hv1⟩ := step_contentChanged_shape engine conv _ x hwA
  have hrun1 : run engine conv s (burst ts x) =
      step engine conv (run engine conv s (ts.map Event.contentChanged))
        (Event.contentChanged x) := by
    rw [hb, run_append]
    rfl
  have hfire := step_fireTimer_of_single engine conv _ _ ht1
  have hrun2 : run engine conv s (burst ts x ++ [Event.fireTimer]) =
      step engine conv (run engine conv s (burst ts x)) Event.fireTimer := by
    rw [run_append]
    rfl
  refine ⟨?_,
    ⟨{ uri := MODEL_URI,
       languageId :=
         (run engine conv s (ts.map Event.contentChanged)).vscodeDocument.languageId,
       version :=
         (run engine conv s (ts.map Event.contentChanged)).vscodeDocument.version + 1,
       text := x }, rfl, rfl, ?_⟩, ?_⟩
  · rw [hrun1, hv1, hvA]
  · rw [hrun2, hrun1, hfire.1, hv1, hvA]
  · have h3 : burst ts x ++ [Event.fireTimer, Event.fireTimer] =
        (burst ts x ++ [Event.fireTimer]) ++ [Event.fireTimer] := by
      simp
    rw [h3, run_append]
    have h4 : run engine conv (run engine conv s (burst ts x ++ [Event.fireTimer]))
        [Event.fireTimer] =
        step engine conv (run engine conv s (burst ts x ++ [Event.fireTimer]))
          Event.fireTimer := rfl
    rw [h4]
    apply step_fireTimer_of_empty
    rw [hrun2, hrun1]
    exact hfire.2

/-- C1 witness: the burst of one event with text "42" from the startup state
yields exactly one validation pass on a snapshot with text "42". -/
theorem debounce_coalescing_witness :
    (run engine0 conv0 startupState (burst [] "42")).validatedDocs =
      startupState.validatedDocs ∧
    (∃ d : TextDocument, d.text = "42" ∧ d.uri = MODEL_URI ∧
      (run engine0 conv0 startupState (burst [] "42" ++ [Event.fireTimer])).validatedDocs =
        startupState.validatedDocs ++ [d]) ∧
    run engine0 conv0 startupState (burst [] "42" ++ [Event.fireTimer, Event.fireTimer]) =
      run engine0 conv0 startupState (burst [] "42" ++ [Event.fireTimer]) :=
  debounce_coalescing engine0 conv0 [] "42" startupState startup_wf

/-- C2, pending-handle invariant: along every run from startup, the
pendingValidationRequests map has no duplicate URI keys (at most one handle
per URI); scheduling a new validation (validate) while a handle is pending
for MODEL_URI cancels the old timer and replaces the old map entry; and when
the pending timer fires, its entry is removed from the map. -/
theorem pending_handle_invariant (engine : ValidationEngine) (conv : DiagnosticConversion)
    (events : List Event) :
    ((run engine conv startupState events).pendingValidationRequests.map Prod.fst).Nodup ∧
    (∀ oldId : Nat,
      mapGet (run engine conv startupState events).pendingValidationRequests MODEL_URI =
        some oldId →
      oldId ∉ (validate (run engine conv startupState events)).timers.map Timer.id ∧
      mapGet (validate (run engine conv startupState events)).pendingValidationRequests
        MODEL_URI ≠ some oldId) ∧
    (∀ (t : Timer) (rest : List Timer),
      (run engine conv startupState events).timers = t :: rest →
      mapGet (step engine conv (run engine conv startupState events)
        Event.fireTimer).pendingValidationRequests t.doc.uri = none) := by
  have hw : WellFormed (run engine conv startupState events) :=
    wf_run engine conv events startupState startup_wf
  obtain ⟨htv, hpv, hnv, -, -, -⟩ := validate_of_wf _ hw
  refine ⟨?_, ?_, ?_⟩
  · rcases hw with ⟨-, hp⟩ | ⟨t, -, -, -, -, hp⟩ <;> rw [hp] <;> simp
  · intro oldId hold
    rcases hw with ⟨-, hp⟩ | ⟨t, ht, hu, hd, hi, hp⟩
    · rw [hp] at hold
      exact absurd hold (by simp [mapGet])
    · rw [hp] at hold
      simp [mapGet] at hold
      constructor
      · rw [htv]
        simp
        omega
      · rw [hpv]
        simp [mapGet]
        omega
  · intro t rest hts
    rcases hw with ⟨ht, -⟩ | ⟨t1, ht1, hu1, -, -, hp1⟩
    · rw [ht] at hts
      simp at hts
    · have hstep : (step engine conv (run engine conv startupState events)
          Event.fireTimer).pendingValidationRequests =
          mapDelete (run engine conv startupState events).pendingValidationRequests
            t1.doc.uri := by
        simp only [step]
        rw [ht1]
      have hcons := ht1.symm.trans hts
      injection hcons with hteq hrest
      rw [hstep, ← hteq, hp1, hu1]
      simp [mapDelete, mapGet]

/-- C3, empty-document suppression: a validation pass over a snapshot with
empty text calls clear and returns without parsing the document and without
calling the engine's doValidation; over a snapshot with non-empty text the
engine's doValidation is invoked (and clear is not). -/
theorem empty_document_suppression (engine : ValidationEngine)
    (conv : DiagnosticConversion) (coll : DiagnosticCollection)
    (document : TextDocument) :
    (doValidate engine conv coll document).clearCalled =
      decide (document.text.length = 0) ∧
    (doValidate engine conv coll document).parsed =
      decide (0 < document.text.length) ∧
    (doValidate engine conv coll document).engineCalled =
      decide (0 < document.text.length) ∧
    (document.text.length = 0 →
      (doValidate engine conv coll document).coll = collectionClear coll) := by
  unfold doValidate
  by_cases h : document.text.length = 0
  · simp [h]
  · have h' : 0 < document.text.length := Nat.pos_of_ne_zero h
    cases he : engine document with
    | error e => simp [h, h', he]
    | ok p =>
      cases hc : conv p with
      | error e => simp [h, h', he, hc]
      | ok ds => simp [h, h', he, hc]

/-- C4, counterexample to the stated quiescence delay: the timer scheduled by
a buffer mutation carries delay 0 (window.setTimeout is called with the delay
argument omitted, main.ts line 119), so the claimed delay of at least tens of
milliseconds does not hold. -/
theorem quiescence_delay_counterexample :
    (step engine0 conv0 startupState (Event.contentChanged "42")).timers.map
      Timer.delay = [0] ∧
    ¬ (10 : Nat) ≤ 0 := by
  constructor
  · rfl
  · decide

/-- C4 amended: every buffer mutation schedules the deferred validation
callback through setTimeout with the delay argument omitted, i.e. an
effective quiescence delay of 0 milliseconds (next event-loop turn), not
tens to hundreds of milliseconds; the fresh handle is stored under
MODEL_URI and the callback captures the buffer state of the mutation. -/
theorem quiescence_delay_zero (engine : ValidationEngine)
    (conv : DiagnosticConversion) (x : String) (s : WorldState) :
    setTimeoutDefaultDelay = 0 ∧
    ∃ (t : Timer) (earlier : List Timer),
      (step engine conv s (Event.contentChanged x)).timers = earlier ++ [t] ∧
      t.delay = setTimeoutDefaultDelay ∧
      t.doc.text = x ∧ t.doc.uri = MODEL_URI ∧
      mapGet (step engine conv s
        (Event.contentChanged x)).pendingValidationRequests MODEL_URI = some t.id := by
  refine ⟨rfl, ?_⟩
  refine ⟨_, _, rfl, rfl, rfl, rfl, ?_⟩
  exact mapGet_mapSet_self _ _ _

/-- C5, diagnostic replace-not-merge: after two successive set calls for the
same uri, the visible diagnostics for that uri are exactly those of the
second call; nothing of the first call survives (in particular a second call
with the empty list leaves zero diagnostics visible). -/
theorem diagnostic_replace_not_merge (coll : DiagnosticCollection) (uri : String)
    (d1 d2 : List Diagnostic) :
    collectionGet (collectionSet (collectionSet coll uri d1) uri d2) uri = d2 := by
  simp [collectionSet, collectionGet]

/-- C6, hover missing-result handling: when the engine's doHover resolves
with an absent hover (nothing under the cursor), the hover adapter's promise
resolves with an absent editor hover rather than rejecting. -/
theorem hover_missing_result (doHover : HoverEngine)
    (vscodeDocument : VscodeDocument) (position : EditorPosition)
    (h : doHover (createDocument vscodeDocument) (toServicePosition position) =
      Except.ok none) :
    provideHover doHover vscodeDocument position = Except.ok none := by
  unfold provideHover
  rw [h]
  rfl

/-- C6 witness: a hover request against an engine with no hover target
resolves with the absent result. -/
theorem hover_missing_result_witness :
    provideHover hoverEngine0
      { uri := MODEL_URI, languageId := LANGUAGE_ID, version := 1, text := "42" }
      { line := 0, character := 1 } = Except.ok none :=
  hover_missing_result hoverEngine0
    { uri := MODEL_URI, languageId := LANGUAGE_ID, version := 1, text := "42" }
    { line := 0, character := 1 } rfl

/-- C7, transport failure propagation: the schema-retrieval promise resolves
with the response text on load and rejects with the transport's status text
on error; it rejects exactly when the single transport attempt errors (no
retry: the result is a function of that one outcome). -/
theorem transport_failure_propagation (url responseText statusText : String) :
    resolveSchema url (XhrOutcome.load responseText) = Except.ok responseText ∧
    resolveSchema url (XhrOutcome.error statusText) = Except.error statusText ∧
    (∀ outcome : XhrOutcome,
      (∃ e, resolveSchema url outcome = Except.error e) ↔
      (∃ e, outcome = XhrOutcome.error e)) := by
  refine ⟨rfl, rfl, ?_⟩
  intro outcome
  cases outcome with
  | load t => simp [resolveSchema, xhrSend]
  | error st => simp [resolveSchema, xhrSend]

/-- C8, coordinate round-trip: converting a position from editor space to
service space and back is the identity, and likewise for ranges. -/
theorem coordinate_round_trip :
    (∀ p : EditorPosition, toEditorPosition (toServicePosition p) = p) ∧
    (∀ r : EditorRange, toEditorRange (toServiceRange r) = r) :=
  ⟨fun _ => rfl, fun _ => rfl⟩

/-- C9, fixed snapshot URI: every snapshot built by createDocument carries
the constant MODEL_URI regardless of the editor document's own uri, and
along every run from startup the pending-validation map is keyed only by
MODEL_URI. -/
theorem fixed_snapshot_uri :
    (∀ d : VscodeDocument, (createDocument d).uri = MODEL_URI) ∧
    (∀ (engine : ValidationEngine) (conv : DiagnosticConversion)
      (events : List Event) (entry : String × Nat),
      entry ∈ (run engine conv startupState events).pendingValidationRequests →
      entry.1 = MODEL_URI) := by
  refine ⟨fun d => rfl, ?_⟩
  intro engine conv events entry hmem
  have hw := wf_run engine conv events startupState startup_wf
  rcases hw with ⟨-, hp⟩ | ⟨t, -, -, -, -, hp⟩
  · rw [hp] at hmem
    simp at hmem
  · rw [hp] at hmem
    simp at hmem
    rw [hmem]

/-- C10, diagnostics unchanged on engine failure: when the engine's
doValidation rejects, or resolves but the diagnostic conversion rejects, the
validation pass leaves the diagnostic collection exactly as it was — set is
reached only after both succeed. -/
theorem diagnostics_unchanged_on_engine_failure (engine : ValidationEngine)
    (conv : DiagnosticConversion) (coll : DiagnosticCollection)
    (document : TextDocument)
    (hne : document.text.length ≠ 0)
    (hfail : (∃ e, engine document = Except.error e) ∨
      (∃ p e, engine document = Except.ok p ∧ conv p = Except.error e)) :
    (doValidate engine conv coll document).coll = coll := by
  unfold doValidate
  rcases hfail with ⟨e, he⟩ | ⟨p, e, hp, hc⟩
  · simp [hne, he]
  · simp [hne, hp, hc]

/-- C10 witness: a failing engine run over a non-empty snapshot leaves the
previously visible diagnostics untouched. -/
theorem diagnostics_unchanged_on_engine_failure_witness :
    (doValidate engineFail conv0 [(MONACO_URI, [d0])]
      { uri := MODEL_URI, languageId := LANGUAGE_ID, version := 2, text := "42" }).coll =
      [(MONACO_URI, [d0])] :=
  diagnostics_unchanged_on_engine_failure engineFail conv0 [(MONACO_URI, [d0])]
    { uri := MODEL_URI, languageId := LANGUAGE_ID, version := 2, text := "42" }
    (by decide) (Or.inl ⟨"XHR transport error", rfl⟩)

end MonacoJson
